import Mathlib

/-!
Verification development for the C2C Maker Kit project scaffolder
(`scripts/create-new-app.js`).

The scaffolder is modelled shallowly:

* the filesystem is an explicit value (`FS`): an association list of files
  (later writes shadow earlier entries, so `FS.readFile` returns the most
  recent write) together with a list of created directories;
* template trees (`Tr`) mirror the on-disk template directories read by
  `copyDirectory` via `readdirSync(..., { withFileTypes: true })`;
* file bytes are modelled by `FileData`: either plain text, or bytes that
  parse as a structured JSON object (`JSON.parse` succeeds exactly on the
  latter; the concrete byte encoding of structured files is abstracted by
  `readAsText`);
* the interactive run `createNewApp` is a pure function from a `World`
  (the five raw prompt answers, the initial filesystem, the template
  directory, and the success/failure of each external subprocess) to a
  `RunResult` (exit code, final filesystem, ordered event trace, and
  whether an exception reached the top-level catch handler).
-/

set_option maxHeartbeats 1000000

namespace C2C

/-- A filesystem path, as the list of its segments. -/
abbrev Path := List String

/-- A JSON value stored in a manifest field.  String fields are inspected by
the scaffolder (`name` / `description`); every other JSON value is opaque to
it and carried around unchanged. -/
inductive JVal where
  | str (s : String)
  | other (rep : String)
deriving DecidableEq

/-- Contents of a file on disk: either plain text bytes, or bytes that
`JSON.parse` reads as a structured object with the given fields. -/
inductive FileData where
  | text (s : String)
  | jsonObj (fields : List (String × JVal))
deriving DecidableEq

/-- Rendering of a stored JSON value back to text (abstract byte encoding). -/
def JVal.asText : JVal → String
  | .str s => s
  | .other rep => rep

/-- Abstract byte encoding of a structured file, used when such a file is
read with `readFileSync(..., 'utf8')`. -/
def serializeFields (m : List (String × JVal)) : String :=
  String.intercalate "," (m.map (fun e => e.1 ++ ":" ++ e.2.asText))

/-- The text obtained by reading a file as UTF-8. -/
def readAsText : FileData → String
  | .text s => s
  | .jsonObj m => serializeFields m

/-- A template directory tree, as produced by recursive `readdirSync`. -/
inductive Tr where
  | file (data : FileData)
  | dir (entries : List (String × Tr))

/-- The filesystem state.  `files` is an association list in which the most
recent write comes first (so `readFile` models overwriting); `dirs` lists
every directory created so far (plus any pre-existing ones). -/
structure FS where
  files : List (Path × FileData)
  dirs : List Path
deriving DecidableEq

/-- First entry for path `p` in a file list (most recent write first). -/
def findFile : List (Path × FileData) → Path → Option FileData
  | [], _ => none
  | e :: rest, p => if e.1 = p then some e.2 else findFile rest p

/-- Model of `fs.readFileSync`, returning the most recently written
contents of the file at `p`, if any. -/
def FS.readFile (fs : FS) (p : Path) : Option FileData :=
  findFile fs.files p

/-- Model of `fs.writeFileSync` / `fs.copyFileSync` (destination side):
the new entry shadows any previous file at the same path. -/
def FS.writeFile (fs : FS) (p : Path) (d : FileData) : FS :=
  { fs with files := (p, d) :: fs.files }

/-- Model of `fs.mkdirSync`. -/
def FS.mkdir (fs : FS) (p : Path) : FS :=
  { fs with dirs := p :: fs.dirs }

/-- Model of `fs.existsSync`: true if `p` is a directory or a file. -/
def FS.pathExists (fs : FS) (p : Path) : Bool :=
  fs.dirs.contains p || (fs.readFile p).isSome

@[simp] theorem FS.readFile_writeFile (fs : FS) (p q : Path) (d : FileData) :
    (fs.writeFile p d).readFile q = if p = q then some d else fs.readFile q := by
  simp [FS.readFile, FS.writeFile, findFile]

@[simp] theorem FS.readFile_mkdir (fs : FS) (p q : Path) :
    (fs.mkdir p).readFile q = fs.readFile q := rfl

@[simp] theorem FS.files_mkdir (fs : FS) (p : Path) :
    (fs.mkdir p).files = fs.files := rfl

@[simp] theorem FS.files_writeFile (fs : FS) (p : Path) (d : FileData) :
    (fs.writeFile p d).files = (p, d) :: fs.files := rfl

theorem findFile_mem (l : List (Path × FileData)) (p : Path) (d : FileData)
    (h : findFile l p = some d) : (p, d) ∈ l := by
  induction l with
  | nil => simp [findFile] at h
  | cons e rest ih =>
    by_cases he : e.1 = p
    · simp only [findFile, if_pos he, Option.some.injEq] at h
      cases e with
      | mk a b =>
        simp only at he h
        subst he; subst h
        exact List.mem_cons_self _ _
    · simp only [findFile, if_neg he] at h
      exact List.mem_cons_of_mem e (ih h)

theorem FS.readFile_mem (fs : FS) (p : Path) (d : FileData)
    (h : fs.readFile p = some d) : (p, d) ∈ fs.files :=
  findFile_mem fs.files p d h

/-! ### Token replacement (README substitution)

`updateConfigFiles` rewrites the README with
`readme.replace(/{{PROJECT_NAME}}/g, config.name)` followed by
`readme.replace(/{{PROJECT_DESCRIPTION}}/g, config.description)`.  Both
patterns are literal (no regex metacharacter is active inside them, and
they contain no capture group), and a `/g` replace scans the subject left
to right, never rescanning replacement text.

Because the replacement argument is a string, ECMAScript applies
GetSubstitution to it at every match: a dollar followed by a dollar yields
one dollar, dollar-ampersand yields the matched text, dollar-backquote the
part of the subject before the match, dollar-quote the part after it, and
every other dollar sequence stays literal (capture references cannot
resolve, the patterns have no groups).  `replaceAllJS` models that scan
faithfully; `replaceAll` is the plain literal-splice scan, kept as the
reference definition matching the words of the spec ("literal substring
replacement") so the two can be compared. -/

/-- One scan step per unit of fuel.  Each step consumes at least one
character of the subject (a match consumes the whole nonempty pattern), so
fuel equal to the subject length never runs out; the fuel argument only
makes the recursion structural. -/
def replaceAllGo (pat rep : List Char) : Nat → List Char → List Char
  | _, [] => []
  | 0, s => s
  | fuel + 1, c :: rest =>
    if pat ≠ [] ∧ pat.isPrefixOf (c :: rest) then
      rep ++ replaceAllGo pat rep fuel ((c :: rest).drop pat.length)
    else
      c :: replaceAllGo pat rep fuel rest

/-- Replace every (left-to-right, non-overlapping) occurrence of `pat` in
`s` by `rep`; replacement text is not rescanned. -/
def replaceAll (pat rep s : List Char) : List Char :=
  replaceAllGo pat rep s.length s

/-- If `pat` occurs nowhere in `s` (as a contiguous sublist), the scan
leaves `s` unchanged (whatever the fuel). -/
theorem replaceAllGo_of_not_infix (pat rep : List Char) :
    ∀ (fuel : Nat) (s : List Char), ¬ pat <:+: s →
      replaceAllGo pat rep fuel s = s := by
  intro fuel
  induction fuel with
  | zero =>
    intro s _
    cases s <;> rfl
  | succ n ih =>
    intro s h
    cases s with
    | nil => rfl
    | cons c rest =>
      rw [replaceAllGo, if_neg]
      · rw [ih rest]
        intro hinf
        exact h (List.infix_cons hinf)
      · rintro ⟨-, hpre⟩
        rw [List.isPrefixOf_iff_prefix] at hpre
        exact h hpre.isInfix

/-- If `pat` occurs nowhere in `s`, replacement leaves `s` unchanged. -/
theorem replaceAll_of_not_infix (pat rep : List Char) (s : List Char)
    (h : ¬ pat <:+: s) : replaceAll pat rep s = s :=
  replaceAllGo_of_not_infix pat rep s.length s h

/-- ECMAScript GetSubstitution for a string replacement and a literal,
capture-group-free pattern.  `tok` is the matched text, `before` / `after`
the parts of the whole subject around the match.  Two dollars yield one
dollar, dollar-ampersand yields `tok`, dollar-backquote yields `before`,
dollar-quote yields `after`; any other dollar sequence (including capture
references, which cannot resolve here) stays literal. -/
def expandRep (tok before after : List Char) : List Char → List Char
  | [] => []
  | c :: rest =>
    if c = '$' then
      match rest with
      | [] => ['$']
      | d :: rest2 =>
        if d = '$' then '$' :: expandRep tok before after rest2
        else if d = '&' then tok ++ expandRep tok before after rest2
        else if d = Char.ofNat 96 then before ++ expandRep tok before after rest2
        else if d = Char.ofNat 39 then after ++ expandRep tok before after rest2
        else '$' :: d :: expandRep tok before after rest2
    else c :: expandRep tok before after rest

/-- One scan step per unit of fuel over the suffix of `subject` that
starts at index `i`.  A match emits the expanded replacement — whose
dollar escapes see the whole subject around the match — and continues
after the matched text.  As in `replaceAllGo`, fuel equal to the subject
length never runs out. -/
def replaceAllJSGo (pat rep subject : List Char) :
    Nat → List Char → Nat → List Char
  | _, [], _ => []
  | 0, s, _ => s
  | fuel + 1, c :: rest, i =>
    if pat ≠ [] ∧ pat.isPrefixOf (c :: rest) then
      expandRep pat (subject.take i) (subject.drop (i + pat.length)) rep
        ++ replaceAllJSGo pat rep subject fuel ((c :: rest).drop pat.length)
            (i + pat.length)
    else
      c :: replaceAllJSGo pat rep subject fuel rest (i + 1)

/-- Model of JavaScript `subject.replace(/pat/g, rep)` for a literal
pattern and a string replacement, dollar-escape expansion included. -/
def replaceAllJS (pat rep subject : List Char) : List Char :=
  replaceAllJSGo pat rep subject subject.length subject 0

/-- If `pat` occurs nowhere in the scanned suffix, the scan reproduces it
unchanged (the replacement, dollars and all, is never consulted). -/
theorem replaceAllJSGo_of_not_infix (pat rep subject : List Char) :
    ∀ (fuel : Nat) (s : List Char) (i : Nat), ¬ pat <:+: s →
      replaceAllJSGo pat rep subject fuel s i = s := by
  intro fuel
  induction fuel with
  | zero =>
    intro s i _
    cases s <;> rfl
  | succ n ih =>
    intro s i h
    cases s with
    | nil => rfl
    | cons c rest =>
      rw [replaceAllJSGo, if_neg]
      · rw [ih rest (i + 1)]
        intro hinf
        exact h (List.infix_cons hinf)
      · rintro ⟨-, hpre⟩
        rw [List.isPrefixOf_iff_prefix] at hpre
        exact h hpre.isInfix

theorem replaceAllJS_of_not_infix (pat rep s : List Char)
    (h : ¬ pat <:+: s) : replaceAllJS pat rep s = s :=
  replaceAllJSGo_of_not_infix pat rep s s.length s 0 h

/-- A replacement without a dollar sign is expanded to itself. -/
theorem expandRep_no_dollar (tok before after : List Char) :
    ∀ rep : List Char, (∀ c ∈ rep, c ≠ '$') →
      expandRep tok before after rep = rep := by
  intro rep
  induction rep with
  | nil => intro _; rfl
  | cons c rest ih =>
    intro h
    have hc : ¬ c = '$' := h c (by simp)
    rw [expandRep.eq_def]
    simp only [if_neg hc]
    rw [ih (fun x hx => h x (List.mem_cons_of_mem c hx))]

/-- With a dollar-free replacement the faithful scan and the literal
splice agree step by step. -/
theorem replaceAllJSGo_eq_go (pat rep subject : List Char)
    (hrep : ∀ c ∈ rep, c ≠ '$') :
    ∀ (fuel : Nat) (s : List Char) (i : Nat),
      replaceAllJSGo pat rep subject fuel s i = replaceAllGo pat rep fuel s := by
  intro fuel
  induction fuel with
  | zero =>
    intro s i
    cases s <;> rfl
  | succ n ih =>
    intro s i
    cases s with
    | nil => rfl
    | cons c rest =>
      rw [replaceAllJSGo, replaceAllGo]
      by_cases hc : pat ≠ [] ∧ pat.isPrefixOf (c :: rest)
      · rw [if_pos hc, if_pos hc,
          expandRep_no_dollar _ _ _ rep hrep, ih]
      · rw [if_neg hc, if_neg hc, ih]

/-- A dollar-free answer is inserted verbatim: the faithful replace equals
literal substring replacement. -/
theorem replaceAllJS_eq_literal (pat rep s : List Char)
    (hrep : ∀ c ∈ rep, c ≠ '$') :
    replaceAllJS pat rep s = replaceAll pat rep s :=
  replaceAllJSGo_eq_go pat rep s hrep s.length s 0

/-- The first placeholder token. -/
def projectNameToken : String := "{{PROJECT_NAME}}"

/-- The second placeholder token. -/
def projectDescriptionToken : String := "{{PROJECT_DESCRIPTION}}"

/-- Model of the two chained `String.prototype.replace(/.../g, ...)` calls
on the README contents, with ECMAScript dollar-escape expansion of the
string replacement arguments. -/
def updateReadme (s name desc : String) : String :=
  String.mk (replaceAllJS projectDescriptionToken.data desc.data
    (replaceAllJS projectNameToken.data name.data s.data))

/-- Reference definition following the words of the spec and of claim C4:
literal substring replacement of every occurrence of both tokens by the
answers, with no dollar-escape expansion.  Kept only to compare with the
faithful `updateReadme`. -/
def updateReadmeLiteral (s name desc : String) : String :=
  String.mk (replaceAll projectDescriptionToken.data desc.data
    (replaceAll projectNameToken.data name.data s.data))

/-- When neither answer contains a dollar sign, the program's README
rewrite is exactly the literal substring replacement the spec words. -/
theorem updateReadme_eq_literal (s name desc : String)
    (h1 : ∀ c ∈ name.data, c ≠ '$') (h2 : ∀ c ∈ desc.data, c ≠ '$') :
    updateReadme s name desc = updateReadmeLiteral s name desc := by
  unfold updateReadme updateReadmeLiteral
  rw [replaceAllJS_eq_literal _ _ _ h1, replaceAllJS_eq_literal _ _ _ h2]

/-- Executable check for a contiguous occurrence of `pat` in a string. -/
def hasInfix (pat : List Char) : List Char → Bool
  | [] => pat.isEmpty
  | c :: rest => pat.isPrefixOf (c :: rest) || hasInfix pat rest

theorem hasInfix_iff (pat : List Char) :
    ∀ s : List Char, hasInfix pat s = true ↔ pat <:+: s := by
  intro s
  induction s with
  | nil =>
    simp only [hasInfix, List.isEmpty_iff]
    constructor
    · rintro rfl; exact List.infix_refl []
    · intro h; exact List.eq_nil_of_infix_nil h
  | cons c rest ih =>
    simp only [hasInfix, Bool.or_eq_true, List.isPrefixOf_iff_prefix, ih,
      List.infix_cons_iff]

/-- A string free of both placeholder tokens. -/
def tokenFree (s : String) : Prop :=
  hasInfix projectNameToken.data s.data = false ∧
  hasInfix projectDescriptionToken.data s.data = false

instance (s : String) : Decidable (tokenFree s) := by
  unfold tokenFree; infer_instance

theorem updateReadme_of_tokenFree (s name desc : String) (h : tokenFree s) :
    updateReadme s name desc = s := by
  obtain ⟨h1, h2⟩ := h
  unfold updateReadme
  have e1 : replaceAllJS projectNameToken.data name.data s.data = s.data :=
    replaceAllJS_of_not_infix _ _ _ (by rw [← hasInfix_iff]; simp [h1])
  rw [e1]
  have e2 : replaceAllJS projectDescriptionToken.data desc.data s.data = s.data :=
    replaceAllJS_of_not_infix _ _ _ (by rw [← hasInfix_iff]; simp [h2])
  rw [e2]

/-! ### Manifest field update

`updateConfigFiles` performs `packageJson.name = config.name` and
`packageJson.description = config.description` on the parsed object and
re-serializes it.  JavaScript property assignment keeps the position of an
existing key (updating its value) and appends a missing key at the end. -/

/-- Whether the object has a field named `k`. -/
def hasKey : List (String × JVal) → String → Bool
  | [], _ => false
  | e :: rest, k => e.1 = k || hasKey rest k

/-- JS property assignment `obj[k] = v` on an object's ordered field list:
an existing key keeps its position and gets the new value; a missing key is
appended at the end. -/
def setField (m : List (String × JVal)) (k : String) (v : JVal) :
    List (String × JVal) :=
  if hasKey m k then
    m.map (fun e => if e.1 = k then (k, v) else e)
  else
    m ++ [(k, v)]

/-- JS property read `obj[k]` (first matching key). -/
def lookupField : List (String × JVal) → String → Option JVal
  | [], _ => none
  | e :: rest, k => if e.1 = k then some e.2 else lookupField rest k

/-- The manifest rewrite performed by `updateConfigFiles`. -/
def updatePackageJson (m : List (String × JVal)) (name desc : String) :
    List (String × JVal) :=
  setField (setField m "name" (.str name)) "description" (.str desc)

theorem lookupField_map_set (m : List (String × JVal)) (k : String) (v : JVal)
    (h : hasKey m k = true) :
    lookupField (m.map (fun e => if e.1 = k then (k, v) else e)) k = some v := by
  induction m with
  | nil => simp [hasKey] at h
  | cons a as ih =>
    by_cases ha : a.1 = k
    · simp [lookupField, if_pos ha]
    · simp only [List.map_cons, if_neg ha, lookupField]
      apply ih
      simpa [hasKey, ha] using h

theorem lookupField_append_single (m : List (String × JVal)) (k : String)
    (v : JVal) (h : hasKey m k = false) :
    lookupField (m ++ [(k, v)]) k = some v := by
  induction m with
  | nil => simp [lookupField]
  | cons a as ih =>
    simp only [hasKey, Bool.or_eq_false_iff] at h
    have ha : ¬ a.1 = k := by simpa using h.1
    simp only [List.cons_append, lookupField, if_neg ha]
    exact ih h.2

theorem lookupField_setField_same (m : List (String × JVal)) (k : String)
    (v : JVal) : lookupField (setField m k v) k = some v := by
  unfold setField
  by_cases h : hasKey m k
  · rw [if_pos h]; exact lookupField_map_set m k v h
  · rw [if_neg h]
    exact lookupField_append_single m k v (by simpa using h)

theorem lookupField_setField_other (m : List (String × JVal)) (k k' : String)
    (v : JVal) (h : k' ≠ k) :
    lookupField (setField m k v) k' = lookupField m k' := by
  unfold setField
  by_cases hm : hasKey m k
  · rw [if_pos hm]
    clear hm
    induction m with
    | nil => rfl
    | cons a as ih =>
      by_cases ha : a.1 = k
      · have h1 : ¬ (k = k') := fun hh => h hh.symm
        have h2 : ¬ a.1 = k' := ha ▸ h1
        simp only [List.map_cons, if_pos ha, lookupField, if_neg h1, if_neg h2]
        exact ih
      · simp only [List.map_cons, if_neg ha, lookupField]
        by_cases ha2 : a.1 = k'
        · simp [ha2]
        · rw [if_neg ha2, if_neg ha2]
          exact ih
  · rw [if_neg hm]
    clear hm
    induction m with
    | nil =>
      have h1 : ¬ (k = k') := fun hh => h hh.symm
      simp [lookupField, h1]
    | cons a as ih =>
      by_cases ha2 : a.1 = k'
      · simp [lookupField, ha2]
      · simp only [List.cons_append, lookupField, if_neg ha2]
        exact ih

theorem hasKey_iff (m : List (String × JVal)) (k : String) :
    hasKey m k = true ↔ ∃ e ∈ m, e.1 = k := by
  induction m with
  | nil => simp [hasKey]
  | cons a as ih => simp [hasKey, ih]

/-- The object has a `k` field and every `k` entry is exactly `(k, v)`. -/
def Normalized (m : List (String × JVal)) (k : String) (v : JVal) : Prop :=
  (∃ e ∈ m, e.1 = k) ∧ ∀ e ∈ m, e.1 = k → e = (k, v)

theorem normalized_setField_self (m : List (String × JVal)) (k : String)
    (v : JVal) : Normalized (setField m k v) k v := by
  unfold setField
  by_cases h : hasKey m k
  · rw [if_pos h]
    obtain ⟨e, hmem, hk⟩ := (hasKey_iff m k).mp h
    constructor
    · refine ⟨(k, v), List.mem_map.mpr ⟨e, hmem, ?_⟩, rfl⟩
      rw [if_pos hk]
    · intro e' he' _
      obtain ⟨a, _, hfa⟩ := List.mem_map.mp he'
      by_cases ha : a.1 = k
      · rw [if_pos ha] at hfa; exact hfa.symm
      · rw [if_neg ha] at hfa
        subst hfa
        rename_i hk'
        exact absurd hk' ha
  · rw [if_neg h]
    constructor
    · exact ⟨(k, v), by simp⟩
    · intro e' he' hk'
      rcases List.mem_append.mp he' with hm | hs
      · have : ∀ e ∈ m, ¬ e.1 = k := by
          intro e he hek
          exact h ((hasKey_iff m k).mpr ⟨e, he, hek⟩)
        exact absurd hk' (this e' hm)
      · simpa using hs

theorem normalized_setField_preserve (m : List (String × JVal))
    (k k' : String) (v v' : JVal) (h : Normalized m k v) (hkk : k ≠ k') :
    Normalized (setField m k' v') k v := by
  unfold setField
  by_cases hm : hasKey m k'
  · rw [if_pos hm]
    obtain ⟨⟨e, hmem, hk⟩, hall⟩ := h
    constructor
    · refine ⟨e, List.mem_map.mpr ⟨e, hmem, ?_⟩, hk⟩
      rw [if_neg]
      rw [hk]
      exact hkk
    · intro e' he' hk'
      obtain ⟨a, hamem, hfa⟩ := List.mem_map.mp he'
      by_cases ha : a.1 = k'
      · rw [if_pos ha] at hfa
        subst hfa
        exact absurd hk'.symm hkk
      · rw [if_neg ha] at hfa
        subst hfa
        exact hall a hamem hk'
  · rw [if_neg hm]
    obtain ⟨⟨e, hmem, hk⟩, hall⟩ := h
    constructor
    · exact ⟨e, List.mem_append_left _ hmem, hk⟩
    · intro e' he' hk'
      rcases List.mem_append.mp he' with hm2 | hs
      · exact hall e' hm2 hk'
      · simp only [List.mem_singleton] at hs
        subst hs
        exact absurd hk'.symm hkk

theorem setField_of_normalized (m : List (String × JVal)) (k : String)
    (v : JVal) (h : Normalized m k v) : setField m k v = m := by
  unfold setField
  rw [if_pos ((hasKey_iff m k).mpr h.1)]
  obtain ⟨-, hall⟩ := h
  induction m with
  | nil => rfl
  | cons a as ih =>
    simp only [List.map_cons]
    congr 1
    · by_cases ha : a.1 = k
      · rw [if_pos ha, hall a (by simp) ha]
      · rw [if_neg ha]
    · exact ih (fun e he hk => hall e (List.mem_cons_of_mem a he) hk)

theorem updatePackageJson_idem (m : List (String × JVal)) (n d : String) :
    updatePackageJson (updatePackageJson m n d) n d = updatePackageJson m n d := by
  unfold updatePackageJson
  have h1 : Normalized (setField m "name" (.str n)) "name" (.str n) :=
    normalized_setField_self m "name" (.str n)
  have h2 : Normalized
      (setField (setField m "name" (.str n)) "description" (.str d))
      "name" (.str n) :=
    normalized_setField_preserve _ _ _ _ _ h1 (by decide)
  have h3 : Normalized
      (setField (setField m "name" (.str n)) "description" (.str d))
      "description" (.str d) :=
    normalized_setField_self _ _ _
  rw [setField_of_normalized _ _ _ h2, setField_of_normalized _ _ _ h3]

/-! ### Recursive template copy (`copyDirectory`)

`copyDirectory(src, dest)` iterates over the entries of `src`; a directory
entry triggers `mkdirSync` at the destination followed by a recursive call,
a file entry triggers `copyFileSync`.  `copyEntries` folds the same
traversal over the explicit filesystem state. -/

/-- Model of `copyDirectory`: copy the listed entries into `dest`. -/
def copyEntries : List (String × Tr) → Path → FS → FS
  | [], _, fs => fs
  | (n, .file d) :: rest, dest, fs =>
    copyEntries rest dest (fs.writeFile (dest ++ [n]) d)
  | (n, .dir es) :: rest, dest, fs =>
    copyEntries rest dest (copyEntries es (dest ++ [n]) (fs.mkdir (dest ++ [n])))

/-- The (relative path, contents) pairs of all files in a template tree,
in traversal order. -/
def entriesFiles : List (String × Tr) → List (Path × FileData)
  | [] => []
  | (n, .file d) :: rest => ([n], d) :: entriesFiles rest
  | (n, .dir es) :: rest =>
    (entriesFiles es).map (fun pd => (n :: pd.1, pd.2)) ++ entriesFiles rest

theorem copyEntries_files (es : List (String × Tr)) (dest : Path) (fs : FS) :
    (copyEntries es dest fs).files =
      ((entriesFiles es).map (fun pd => (dest ++ pd.1, pd.2))).reverse
        ++ fs.files := by
  induction es, dest, fs using copyEntries.induct with
  | case1 dest fs => simp [copyEntries, entriesFiles]
  | case2 n d rest dest fs ih =>
    rw [copyEntries, ih]
    simp [entriesFiles, List.append_assoc]
  | case3 n es rest dest fs ih1 ih2 =>
    rw [copyEntries, ih2, ih1]
    have hmap : (entriesFiles es).map (fun pd => ((dest ++ [n]) ++ pd.1, pd.2))
        = (entriesFiles es).map (fun pd => (dest ++ n :: pd.1, pd.2)) := by
      apply List.map_congr_left
      intro pd _
      rw [List.append_assoc]
      rfl
    rw [hmap]
    simp [entriesFiles, List.map_append, List.map_map, List.reverse_append,
      List.append_assoc, Function.comp]

/-- C2: For every template tree that exists on disk, after the copy step
(into a destination directory that holds no files yet, as just created by
`createProjectDirectory`) the generated project contains a file at
relative path `rel` with given bytes if and only if the template contains
a file at `rel` with those same bytes — the copy is exact and
byte-identical, before token substitution touches anything. -/
theorem copyEntries_exact (es : List (String × Tr)) (dest : Path) (fs : FS)
    (hfresh : ∀ p d, (p, d) ∈ fs.files → ¬ dest <+: p)
    (rel : Path) (data : FileData) :
    (dest ++ rel, data) ∈ (copyEntries es dest fs).files
      ↔ (rel, data) ∈ entriesFiles es := by
  rw [copyEntries_files]
  simp only [List.mem_append, List.mem_reverse, List.mem_map]
  constructor
  · rintro (⟨pd, hpd, heq⟩ | hold)
    · obtain ⟨h1, h2⟩ := Prod.mk.injEq .. ▸ heq
      have : pd.1 = rel := List.append_cancel_left h1
      cases pd with
      | mk a b =>
        simp only at this h2
        subst this; subst h2
        exact hpd
    · exact absurd (List.prefix_append dest rel) (hfresh _ _ hold)
  · intro hmem
    exact Or.inl ⟨(rel, data), hmem, rfl⟩

/-! ### Prompt answer resolution

Each numeric-choice prompt runs `parseInt(answer.trim())` and indexes a
fixed array with `arr[n - 1] || default` (out-of-range and `NaN` indexing
both yield `undefined`, hence the default).  `parseIntJS` models
`parseInt` with no radix argument: optional sign, optional `0x`/`0X` hex
prefix, then the longest run of digits; no digits means `NaN` (`none`).
(Float rounding of integers beyond 2^53 is not modelled; it cannot move a
value into or out of the 1-based ranges used here.) -/

/-- Model of JavaScript `String.prototype.trim` (as applied to every prompt
answer): strip leading and trailing whitespace. -/
def trimJS (s : String) : String :=
  String.mk (((s.data.dropWhile (fun c => c.isWhitespace)).reverse.dropWhile
    (fun c => c.isWhitespace)).reverse)

/-- Numeric value of a (decimal or hex) digit. -/
def digitVal (c : Char) : Nat :=
  if c.isDigit then c.toNat - 48
  else if 'a' ≤ c ∧ c ≤ 'f' then c.toNat - 87
  else c.toNat - 55

/-- Whether `c` is a hexadecimal digit. -/
def isHexDigit (c : Char) : Bool :=
  c.isDigit || ('a' ≤ c && c ≤ 'f') || ('A' ≤ c && c ≤ 'F')

/-- Accumulate digit characters into a number. -/
def digitsToNat (base : Nat) (ds : List Char) : Nat :=
  ds.foldl (fun a c => a * base + digitVal c) 0

/-- Model of JavaScript `parseInt(s)` (radix unspecified). -/
def parseIntJS (s : String) : Option Int :=
  let cs := s.data.dropWhile (fun c => c.isWhitespace)
  let signed : Int × List Char :=
    match cs with
    | '-' :: rest => (-1, rest)
    | '+' :: rest => (1, rest)
    | _ => (1, cs)
  let based : Nat × List Char :=
    match signed.2 with
    | '0' :: 'x' :: rest => (16, rest)
    | '0' :: 'X' :: rest => (16, rest)
    | _ => (10, signed.2)
  let ds := based.2.takeWhile
    (fun c => if based.1 = 16 then isHexDigit c else c.isDigit)
  if ds.isEmpty then none
  else some (signed.1 * (digitsToNat based.1 ds : Int))

/-- The fixed array of the project-type prompt. -/
def projectTypes : List String := ["basic-crud", "dashboard", "plugin", "custom"]

/-- Model of `getProjectType`: `types[parseInt(answer.trim()) - 1] || 'custom'`. -/
def resolveProjectType (answer : String) : String :=
  match parseIntJS (trimJS answer) with
  | none => "custom"
  | some t =>
    if 1 ≤ t then (projectTypes[(t - 1).toNat]?).getD "custom" else "custom"

/-- The fixed array of the database prompt. -/
def databaseOptions : List String := ["supabase", "local", "none"]

/-- Model of `getDatabaseConfig`: `options[parseInt(answer.trim()) - 1] || 'supabase'`. -/
def resolveDatabase (answer : String) : String :=
  match parseIntJS (trimJS answer) with
  | none => "supabase"
  | some t =>
    if 1 ≤ t then (databaseOptions[(t - 1).toNat]?).getD "supabase" else "supabase"

/-- Model of `getAuthConfig`: `parseInt(answer.trim()) === 1`. -/
def resolveAuth (answer : String) : Bool :=
  parseIntJS (trimJS answer) = some 1

/-! ### The scaffolding run -/

/-- The five answers collected by `createNewApp`, passed to
`updateConfigFiles` as the `config` object. -/
structure Config where
  name : String
  description : String
  type : String
  database : String
  auth : Bool

/-- Observable events of a run, in order: prompts issued, subprocesses
spawned (`execSync`), and console messages. -/
inductive Event where
  | prompt (question : String)
  | spawnCmd (cmd : String) (cwd : Path)
  | warn (msg : String)
  | errorMsg (msg : String)
  | successMsg (msg : String)
  | info (msg : String)
  | summary (name : String) (path : Path)
deriving DecidableEq

/-- Count the occurrences of event `e` in a trace. -/
def countEvent (e : Event) : List Event → Nat
  | [] => 0
  | x :: rest => (if x = e then 1 else 0) + countEvent e rest

/-- The README rewrite performed inside `updateConfigFiles`. -/
def updateReadmeFile (projectPath : Path) (config : Config) (fs : FS) : FS :=
  match fs.readFile (projectPath ++ ["README.md"]) with
  | some d =>
    fs.writeFile (projectPath ++ ["README.md"])
      (.text (updateReadme (readAsText d) config.name config.description))
  | none => fs

/-- Model of `updateConfigFiles(projectPath, config)`: if `package.json`
is present it is `JSON.parse`d (throwing, hence `.error`, on bytes that are
not a JSON object), its `name`/`description` fields assigned, and the
object re-serialized; if `README.md` is present its placeholder tokens are
replaced; missing files are skipped. -/
def updateConfigFiles (projectPath : Path) (config : Config) (fs : FS) :
    Except Unit (FS × List Event) :=
  match fs.readFile (projectPath ++ ["package.json"]) with
  | some (.text _) => .error ()
  | some (.jsonObj m) =>
    .ok (updateReadmeFile projectPath config
          (fs.writeFile (projectPath ++ ["package.json"])
            (.jsonObj (updatePackageJson m config.name config.description))),
         [Event.successMsg "Updated configuration files"])
  | none =>
    .ok (updateReadmeFile projectPath config fs,
         [Event.successMsg "Updated configuration files"])

/-- Events of `installDependencies`: try `pnpm install`; on failure fall
back to `npm install` once; on a second failure warn and continue. -/
def installEvents (pnpmOk npmOk : Bool) (p : Path) : List Event :=
  Event.info "Installing dependencies..." ::
  Event.spawnCmd "pnpm install" p ::
  (if pnpmOk then [Event.successMsg "Dependencies installed successfully"]
   else
     Event.warn "Failed to install dependencies with pnpm, trying npm..." ::
     Event.spawnCmd "npm install" p ::
     (if npmOk then [Event.successMsg "Dependencies installed successfully"]
      else
        [Event.warn "Failed to install dependencies automatically",
         Event.info "Please run pnpm install or npm install in your project directory"]))

/-- Events of `createInitialCommit`: `git init`, `git add .`, `git commit`
in sequence; the first failure aborts the sequence with a warning. -/
def gitEvents (initOk addOk commitOk : Bool) (p : Path) : List Event :=
  Event.spawnCmd "git init" p ::
  (if initOk then
     Event.spawnCmd "git add ." p ::
     (if addOk then
        Event.spawnCmd "git commit -m Initial commit from C2C starter kit" p ::
        (if commitOk then [Event.successMsg "Created initial git commit"]
         else [Event.warn "Failed to create initial git commit",
               Event.info "Please run git init and git commit manually"])
      else [Event.warn "Failed to create initial git commit",
            Event.info "Please run git init and git commit manually"])
   else [Event.warn "Failed to create initial git commit",
         Event.info "Please run git init and git commit manually"])

/-- The raw strings typed at the five prompts, in prompt order. -/
structure Answers where
  name : String
  desc : String
  ptype : String
  db : String
  auth : String

/-- The whole environment of a run: the answers, the initial filesystem,
the tool-relative template directory (`templates/<kind>` trees keyed by
kind, as consulted by `copyTemplateFiles`), the working directory, and
whether each external subprocess succeeds when invoked. -/
structure World where
  answers : Answers
  fs : FS
  templates : List (String × List (String × Tr))
  cwd : Path
  pnpmOk : Bool
  npmOk : Bool
  gitInitOk : Bool
  gitAddOk : Bool
  gitCommitOk : Bool

/-- Lookup of `templates/<kind>` on disk (`existsSync` + readdir). -/
def lookupTemplate : List (String × List (String × Tr)) → String →
    Option (List (String × Tr))
  | [], _ => none
  | t :: rest, k => if t.1 = k then some t.2 else lookupTemplate rest k

/-- The outcome of a run: the process exit code, the final filesystem, the
ordered event trace, and whether an exception reached the top-level
`catch` handler of `createNewApp`. -/
structure RunResult where
  exitCode : Nat
  fs : FS
  events : List Event
  threw : Bool
deriving DecidableEq

/-- The trimmed answer to the first prompt (`getProjectName`). -/
def projectNameOf (w : World) : String := trimJS w.answers.name

/-- `path.join(process.cwd(), projectName)`. -/
def projectPathOf (w : World) : Path := w.cwd ++ [projectNameOf w]

/-- The template entries resolved from the chosen project type, if the
template directory exists on disk. -/
def templateEntries (w : World) : Option (List (String × Tr)) :=
  lookupTemplate w.templates (resolveProjectType w.answers.ptype)

/-- The filesystem after `createProjectDirectory` and `copyTemplateFiles`:
the project directory is created, then the template tree is copied into it
(or the copy is skipped with a warning when the template is missing). -/
def copiedFS (w : World) : FS :=
  match templateEntries w with
  | none => w.fs.mkdir (projectPathOf w)
  | some es => copyEntries es (projectPathOf w) (w.fs.mkdir (projectPathOf w))

/-- The console events of the copy step. -/
def copyEvents (w : World) : List Event :=
  match templateEntries w with
  | none => [Event.warn ("Template " ++ resolveProjectType w.answers.ptype
      ++ " not found, using basic template")]
  | some _ => [Event.successMsg ("Copied template files for "
      ++ resolveProjectType w.answers.ptype)]

/-- The `config` object assembled by `createNewApp`. -/
def configOf (w : World) : Config :=
  { name := projectNameOf w
    description := trimJS w.answers.desc
    type := resolveProjectType w.answers.ptype
    database := resolveDatabase w.answers.db
    auth := resolveAuth w.answers.auth }

/-- Result of the `updateConfigFiles` step on the copied project. -/
def configResult (w : World) : Except Unit (FS × List Event) :=
  updateConfigFiles (projectPathOf w) (configOf w) (copiedFS w)

/-- The five prompt events, in the fixed order they are issued. -/
def promptEvents : List Event :=
  [Event.prompt "What is the name of your project? ",
   Event.prompt "Describe your project (optional): ",
   Event.prompt "Choose a project type (1-4): ",
   Event.prompt "Choose database option (1-3): ",
   Event.prompt "Choose auth option (1-2): "]

/-- Model of the whole `createNewApp` run.  An empty (trimmed) project
name exits with code 1 right after the first prompt (`process.exit(1)`,
not an exception); an existing destination makes `createProjectDirectory`
throw, which the top-level `catch` turns into exit code 1; a `JSON.parse`
failure in `updateConfigFiles` does the same after the copy; otherwise the
run continues through install and git (both soft failures) to the summary
and exits 0. -/
def createNewApp (w : World) : RunResult :=
  if projectNameOf w = "" then
    { exitCode := 1
      fs := w.fs
      events := [Event.prompt "What is the name of your project? ",
                 Event.errorMsg "Project name is required"]
      threw := false }
  else if w.fs.pathExists (projectPathOf w) then
    { exitCode := 1
      fs := w.fs
      events := promptEvents
        ++ [Event.errorMsg "Failed to create app: Directory already exists"]
      threw := true }
  else
    match configResult w with
    | .error _ =>
      { exitCode := 1
        fs := copiedFS w
        events := promptEvents
          ++ [Event.successMsg "Created project directory"]
          ++ copyEvents w
          ++ [Event.errorMsg "Failed to create app: JSON parse error"]
        threw := true }
    | .ok r =>
      { exitCode := 0
        fs := r.1
        events := promptEvents
          ++ [Event.successMsg "Created project directory"]
          ++ copyEvents w
          ++ r.2
          ++ installEvents w.pnpmOk w.npmOk (projectPathOf w)
          ++ gitEvents w.gitInitOk w.gitAddOk w.gitCommitOk (projectPathOf w)
          ++ [Event.summary (projectNameOf w) (projectPathOf w)]
        threw := false }

/-! ### Helper lemmas about runs -/

theorem countEvent_append (e : Event) (l1 l2 : List Event) :
    countEvent e (l1 ++ l2) = countEvent e l1 + countEvent e l2 := by
  induction l1 with
  | nil => simp [countEvent]
  | cons x rest ih =>
    have hc : (x :: rest) ++ l2 = x :: (rest ++ l2) := rfl
    rw [hc, countEvent, countEvent, ih]
    omega

theorem pjPath_ne_rdPath (root : Path) :
    root ++ ["package.json"] ≠ root ++ ["README.md"] := by
  intro h
  have h2 := List.append_cancel_left h
  exact absurd h2 (by decide)

theorem readFile_updateReadmeFile_other (root : Path) (config : Config)
    (fs : FS) (p : Path) (hp : p ≠ root ++ ["README.md"]) :
    (updateReadmeFile root config fs).readFile p = fs.readFile p := by
  unfold updateReadmeFile
  cases h : fs.readFile (root ++ ["README.md"]) with
  | none => rfl
  | some d => rw [FS.readFile_writeFile, if_neg (Ne.symm hp)]

theorem configFiles_ok_events (root : Path) (config : Config) (fs fs' : FS)
    (ev : List Event)
    (h : updateConfigFiles root config fs = .ok (fs', ev)) :
    ev = [Event.successMsg "Updated configuration files"] := by
  unfold updateConfigFiles at h
  cases hm : fs.readFile (root ++ ["package.json"]) with
  | none =>
    rw [hm] at h
    simp only [Except.ok.injEq, Prod.mk.injEq] at h
    exact h.2.symm
  | some d =>
    cases d with
    | text s =>
      rw [hm] at h
      simp at h
    | jsonObj m =>
      rw [hm] at h
      simp only [Except.ok.injEq, Prod.mk.injEq] at h
      exact h.2.symm

/-! ### The claims -/

/-- C1: If the destination directory (cwd joined with the trimmed project
name) already exists when the scaffolder reaches the directory-creation
step, the run fails with the fatal directory-already-exists error before
performing any file copy: the exit code is non-zero (1), the filesystem —
including the pre-existing directory and its contents — is left exactly as
it was, and no subprocess is spawned. -/
theorem c1_dest_exists_fails_fast (w : World)
    (h1 : projectNameOf w ≠ "")
    (h2 : w.fs.pathExists (projectPathOf w) = true) :
    (createNewApp w).exitCode = 1 ∧ (createNewApp w).fs = w.fs ∧
      ∀ c p, Event.spawnCmd c p ∉ (createNewApp w).events := by
  unfold createNewApp
  rw [if_neg h1, if_pos h2]
  refine ⟨rfl, rfl, ?_⟩
  intro c p
  simp [promptEvents]

def c1World : World :=
  { answers := ⟨"app", "d", "1", "1", "1"⟩
    fs := ⟨[], [["home", "app"]]⟩
    templates := []
    cwd := ["home"]
    pnpmOk := true
    npmOk := true
    gitInitOk := true
    gitAddOk := true
    gitCommitOk := true }

theorem c1_witness :
    (createNewApp c1World).exitCode = 1 ∧ (createNewApp c1World).fs = c1World.fs ∧
      ∀ c p, Event.spawnCmd c p ∉ (createNewApp c1World).events :=
  c1_dest_exists_fails_fast c1World (by decide) (by decide)

def c2Entries : List (String × Tr) :=
  [("README.md", .file (.text "# {{PROJECT_NAME}}")),
   ("components", .dir [("ItemForm.tsx", .file (.text "form"))])]

theorem c2_witness :
    ((["home", "app"] ++ ["components", "ItemForm.tsx"], FileData.text "form")
        ∈ (copyEntries c2Entries ["home", "app"]
            (FS.mk [] [["home", "app"]])).files)
      ↔ ((["components", "ItemForm.tsx"], FileData.text "form")
            ∈ entriesFiles c2Entries) :=
  copyEntries_exact c2Entries ["home", "app"] (FS.mk [] [["home", "app"]])
    (by intro p d hmem; simp at hmem) ["components", "ItemForm.tsx"]
    (FileData.text "form")

/-- C9: If the answer to the project-name prompt is empty after trimming,
the run stops right after the first prompt with exit code 1 (via
`process.exit(1)`, not an exception): the event trace is exactly the first
prompt followed by the error message — so no further prompt is issued, no
directory is created, no subprocess is spawned — and the filesystem is
returned unchanged. -/
theorem c9_empty_name_early_exit (w : World) (h : projectNameOf w = "") :
    createNewApp w =
      { exitCode := 1
        fs := w.fs
        events := [Event.prompt "What is the name of your project? ",
                   Event.errorMsg "Project name is required"]
        threw := false } := by
  unfold createNewApp
  rw [if_pos h]

def c9World : World :=
  { answers := ⟨"   ", "d", "1", "1", "1"⟩
    fs := ⟨[], []⟩
    templates := []
    cwd := ["home"]
    pnpmOk := true
    npmOk := true
    gitInitOk := true
    gitAddOk := true
    gitCommitOk := true }

theorem c9_witness :
    createNewApp c9World =
      { exitCode := 1
        fs := c9World.fs
        events := [Event.prompt "What is the name of your project? ",
                   Event.errorMsg "Project name is required"]
        threw := false } :=
  c9_empty_name_early_exit c9World (by decide)

def c3World : World :=
  { answers := ⟨" ", "", "", "", ""⟩
    fs := ⟨[], []⟩
    templates := []
    cwd := ["home"]
    pnpmOk := true
    npmOk := true
    gitInitOk := true
    gitAddOk := true
    gitCommitOk := true }

/-- C3 counterexample: a run whose project-name answer trims to the empty
string exits with a non-zero code even though the destination does not
exist and no exception reaches the top-level catch handler — so a non-zero
exit is not restricted to the two cases the claim allows. -/
theorem c3_counterexample :
    (createNewApp c3World).exitCode ≠ 0 ∧
    c3World.fs.pathExists (projectPathOf c3World) = false ∧
    (createNewApp c3World).threw = false := by decide

/-- C3 amended: every run exits with code 0 or 1, and the exit code is
non-zero exactly when the project name is empty after trimming, or the
destination directory already exists, or an uncaught exception reaches the
top-level catch handler (the empty-name validation exit is a third
non-zero case, which the claim as stated omitted); in particular every
completing run — including those with soft-failure warnings — exits 0. -/
theorem c3_exit_code_cases (w : World) :
    ((createNewApp w).exitCode = 0 ∨ (createNewApp w).exitCode = 1) ∧
    ((createNewApp w).exitCode ≠ 0 ↔
      (projectNameOf w = "" ∨ w.fs.pathExists (projectPathOf w) = true ∨
        (createNewApp w).threw = true)) := by
  unfold createNewApp
  by_cases h1 : projectNameOf w = ""
  · rw [if_pos h1]
    simp [h1]
  · rw [if_neg h1]
    by_cases h2 : w.fs.pathExists (projectPathOf w) = true
    · rw [if_pos h2]
      simp [h1, h2]
    · rw [if_neg h2]
      cases hc : configResult w with
      | error e => simp [h1, h2]
      | ok r => simp [h1, h2]

theorem readFile_writeFile_self_eq (fs : FS) (p : Path) (d : FileData)
    (h : fs.readFile p = some d) :
    ∀ q, (fs.writeFile p d).readFile q = fs.readFile q := by
  intro q
  rw [FS.readFile_writeFile]
  by_cases hq : p = q
  · subst hq
    rw [if_pos rfl, h]
  · rw [if_neg hq]

theorem updateReadmeFile_rd_none (root : Path) (config : Config) (fs : FS)
    (h : fs.readFile (root ++ ["README.md"]) = none) :
    (updateReadmeFile root config fs).readFile (root ++ ["README.md"]) = none := by
  unfold updateReadmeFile
  rw [h]
  exact h

theorem updateReadmeFile_rd_some (root : Path) (config : Config) (fs : FS)
    (d : FileData) (h : fs.readFile (root ++ ["README.md"]) = some d) :
    (updateReadmeFile root config fs).readFile (root ++ ["README.md"])
      = some (.text (updateReadme (readAsText d) config.name
          config.description)) := by
  unfold updateReadmeFile
  rw [h, FS.readFile_writeFile, if_pos rfl]

def c4cFs : FS :=
  ⟨[(["p", "README.md"], .text "{{PROJECT_NAME}}")], [["p"]]⟩

def c4cConfig : Config := ⟨"a$$b", "d", "custom", "supabase", false⟩

def c4cOnce : FS :=
  match updateConfigFiles ["p"] c4cConfig c4cFs with
  | .ok (f, _) => f
  | .error _ => c4cFs

/-- C4 counterexample: with project name `a$$b`, the program rewrites a
README reading `{{PROJECT_NAME}}` to `a$b` — the dollar escape `$$` in the
string replacement is expanded to a single dollar — whereas literal
substring replacement of the token by the answer would give `a$$b`.  So
the README token is not always "replaced by literal substring replacement
with the project name", as the claim states. -/
theorem c4_counterexample :
    (updateConfigFiles ["p"] c4cConfig c4cFs).isOk = true ∧
    c4cOnce.readFile ["p", "README.md"] = some (.text "a$b") ∧
    updateReadmeLiteral "{{PROJECT_NAME}}" c4cConfig.name c4cConfig.description
      = "a$$b" ∧
    FileData.text "a$b" ≠ FileData.text "a$$b" := by decide

/-- C4 amended: Token substitution rewrites at most the two root files:
when `package.json` is present (as structured data, the only bytes
`JSON.parse` accepts), the rewritten manifest is again structured data
whose `name` and `description` fields hold the answers; when `README.md`
is present, its new contents are the old contents with every occurrence of
the two placeholder tokens replaced under JavaScript string-replacement
semantics — the answer is inserted with its dollar escapes expanded, which
coincides with literal substring replacement exactly when the answers are
dollar-free (last clause); a missing manifest or README is skipped
silently; every other path is untouched. -/
theorem c4_update_config_semantics (root : Path) (config : Config) (fs : FS)
    (hm : fs.readFile (root ++ ["package.json"]) = none ∨
      ∃ m, fs.readFile (root ++ ["package.json"]) = some (.jsonObj m)) :
    ∃ fs', updateConfigFiles root config fs
        = .ok (fs', [Event.successMsg "Updated configuration files"]) ∧
      (∀ p, p ≠ root ++ ["package.json"] → p ≠ root ++ ["README.md"] →
        fs'.readFile p = fs.readFile p) ∧
      (fs.readFile (root ++ ["package.json"]) = none →
        fs'.readFile (root ++ ["package.json"]) = none) ∧
      (∀ m, fs.readFile (root ++ ["package.json"]) = some (.jsonObj m) →
        ∃ m', fs'.readFile (root ++ ["package.json"]) = some (.jsonObj m') ∧
          lookupField m' "name" = some (.str config.name) ∧
          lookupField m' "description" = some (.str config.description)) ∧
      (fs.readFile (root ++ ["README.md"]) = none →
        fs'.readFile (root ++ ["README.md"]) = none) ∧
      (∀ d, fs.readFile (root ++ ["README.md"]) = some d →
        fs'.readFile (root ++ ["README.md"])
          = some (.text (updateReadme (readAsText d) config.name
              config.description))) ∧
      ((∀ c ∈ config.name.data, c ≠ '$') →
        (∀ c ∈ config.description.data, c ≠ '$') →
        ∀ d, fs.readFile (root ++ ["README.md"]) = some d →
        fs'.readFile (root ++ ["README.md"])
          = some (.text (updateReadmeLiteral (readAsText d) config.name
              config.description))) := by
  rcases hm with hnone | ⟨m, hsome⟩
  · refine ⟨updateReadmeFile root config fs, ?_, ?_, ?_, ?_, ?_, ?_, ?_⟩
    · unfold updateConfigFiles
      rw [hnone]
    · intro p _ hp2
      exact readFile_updateReadmeFile_other root config fs p hp2
    · intro _
      rw [readFile_updateReadmeFile_other root config fs _ (pjPath_ne_rdPath root)]
      exact hnone
    · intro m2 hm2
      rw [hnone] at hm2
      cases hm2
    · intro h
      exact updateReadmeFile_rd_none root config fs h
    · intro d h
      exact updateReadmeFile_rd_some root config fs d h
    · intro hn hd d h
      rw [updateReadmeFile_rd_some root config fs d h,
        updateReadme_eq_literal _ _ _ hn hd]
  · have hrdW : (fs.writeFile (root ++ ["package.json"])
        (.jsonObj (updatePackageJson m config.name config.description))).readFile
          (root ++ ["README.md"]) = fs.readFile (root ++ ["README.md"]) := by
      rw [FS.readFile_writeFile, if_neg (pjPath_ne_rdPath root)]
    refine ⟨updateReadmeFile root config
      (fs.writeFile (root ++ ["package.json"])
        (.jsonObj (updatePackageJson m config.name config.description))),
      ?_, ?_, ?_, ?_, ?_, ?_, ?_⟩
    · unfold updateConfigFiles
      rw [hsome]
    · intro p hp1 hp2
      rw [readFile_updateReadmeFile_other root config _ p hp2,
        FS.readFile_writeFile, if_neg (Ne.symm hp1)]
    · intro hc
      rw [hc] at hsome
      cases hsome
    · intro m2 hm2
      rw [hsome] at hm2
      cases hm2 with
      | refl =>
        refine ⟨updatePackageJson m config.name config.description, ?_, ?_, ?_⟩
        · rw [readFile_updateReadmeFile_other root config _ _ (pjPath_ne_rdPath root),
            FS.readFile_writeFile, if_pos rfl]
        · unfold updatePackageJson
          rw [lookupField_setField_other _ _ _ _ (by decide)]
          exact lookupField_setField_same _ _ _
        · exact lookupField_setField_same _ _ _
    · intro h
      exact updateReadmeFile_rd_none root config _ (hrdW.trans h)
    · intro d h
      exact updateReadmeFile_rd_some root config _ d (hrdW.trans h)
    · intro hn hd d h
      rw [updateReadmeFile_rd_some root config _ d (hrdW.trans h),
        updateReadme_eq_literal _ _ _ hn hd]

def c4Fs : FS :=
  ⟨[(["home", "app", "package.json"],
      .jsonObj [("name", .str "template"), ("version", .other "1.0.0")]),
    (["home", "app", "README.md"],
      .text "# {{PROJECT_NAME}} - {{PROJECT_DESCRIPTION}}")],
   [["home", "app"]]⟩

def c4Config : Config := ⟨"helper-app", "Test", "basic-crud", "supabase", true⟩

theorem c4_witness :
    ∃ fs', updateConfigFiles ["home", "app"] c4Config c4Fs
        = .ok (fs', [Event.successMsg "Updated configuration files"]) ∧
      (∀ p, p ≠ ["home", "app"] ++ ["package.json"] →
        p ≠ ["home", "app"] ++ ["README.md"] →
        fs'.readFile p = c4Fs.readFile p) ∧
      (c4Fs.readFile (["home", "app"] ++ ["package.json"]) = none →
        fs'.readFile (["home", "app"] ++ ["package.json"]) = none) ∧
      (∀ m, c4Fs.readFile (["home", "app"] ++ ["package.json"])
          = some (.jsonObj m) →
        ∃ m', fs'.readFile (["home", "app"] ++ ["package.json"])
            = some (.jsonObj m') ∧
          lookupField m' "name" = some (.str c4Config.name) ∧
          lookupField m' "description" = some (.str c4Config.description)) ∧
      (c4Fs.readFile (["home", "app"] ++ ["README.md"]) = none →
        fs'.readFile (["home", "app"] ++ ["README.md"]) = none) ∧
      (∀ d, c4Fs.readFile (["home", "app"] ++ ["README.md"]) = some d →
        fs'.readFile (["home", "app"] ++ ["README.md"])
          = some (.text (updateReadme (readAsText d) c4Config.name
              c4Config.description))) ∧
      ((∀ c ∈ c4Config.name.data, c ≠ '$') →
        (∀ c ∈ c4Config.description.data, c ≠ '$') →
        ∀ d, c4Fs.readFile (["home", "app"] ++ ["README.md"]) = some d →
        fs'.readFile (["home", "app"] ++ ["README.md"])
          = some (.text (updateReadmeLiteral (readAsText d) c4Config.name
              c4Config.description))) :=
  c4_update_config_semantics ["home", "app"] c4Config c4Fs
    (Or.inr ⟨[("name", .str "template"), ("version", .other "1.0.0")],
      by decide⟩)

def c5Fs : FS :=
  ⟨[(["p", "README.md"], .text "{{PROJECT_DESCRIPTION}}")], [["p"]]⟩

def c5Config : Config := ⟨"x", "{{PROJECT_NAME}}", "custom", "supabase", false⟩

def c5Once : FS :=
  match updateConfigFiles ["p"] c5Config c5Fs with
  | .ok (f, _) => f
  | .error _ => c5Fs

def c5Twice : FS :=
  match updateConfigFiles ["p"] c5Config c5Once with
  | .ok (f, _) => f
  | .error _ => c5Once

/-- C5 counterexample: with project name `x` and description
`{{PROJECT_NAME}}`, substituting a README that reads
`{{PROJECT_DESCRIPTION}}` once yields `{{PROJECT_NAME}}` (the description
is inserted verbatim), and substituting a second time with the same
answers rewrites it to `x` — so token substitution is not idempotent for
every project name and description. -/
theorem c5_counterexample :
    (updateConfigFiles ["p"] c5Config c5Fs).isOk = true ∧
    (updateConfigFiles ["p"] c5Config c5Once).isOk = true ∧
    c5Once.readFile ["p", "README.md"] = some (.text "{{PROJECT_NAME}}") ∧
    c5Twice.readFile ["p", "README.md"] = some (.text "x") := by decide

theorem updateReadmeFile_congr_ptwise (root : Path) (config : Config)
    (fsA fsB : FS) (h : ∀ p, fsA.readFile p = fsB.readFile p) (p : Path) :
    (updateReadmeFile root config fsA).readFile p
      = (updateReadmeFile root config fsB).readFile p := by
  unfold updateReadmeFile
  rw [h (root ++ ["README.md"])]
  cases hb : fsB.readFile (root ++ ["README.md"]) with
  | none => exact h p
  | some d =>
    rw [FS.readFile_writeFile, FS.readFile_writeFile]
    by_cases hp : (root ++ ["README.md"]) = p
    · rw [if_pos hp, if_pos hp]
    · rw [if_neg hp, if_neg hp]
      exact h p

theorem second_run_fixpoint (root : Path) (config : Config) (fsX : FS)
    (hRd : fsX.readFile (root ++ ["README.md"]) = none ∨
      ∃ u, fsX.readFile (root ++ ["README.md"]) = some (.text u) ∧
        updateReadme u config.name config.description = u) :
    ∀ p, (updateReadmeFile root config fsX).readFile p = fsX.readFile p := by
  intro p
  unfold updateReadmeFile
  rcases hRd with h | ⟨u, h, hu⟩
  · rw [h]
  · rw [h]
    simp only [readAsText, hu]
    exact readFile_writeFile_self_eq fsX _ _ h p

/-- The README of a first-run output is either absent or a token-level
fixpoint, provided the original README (if present) substitutes to a
token-free string. -/
theorem first_run_rd_property (root : Path) (config : Config) (fsY : FS)
    (hr : ∀ d, fsY.readFile (root ++ ["README.md"]) = some d →
      tokenFree (updateReadme (readAsText d) config.name config.description)) :
    (updateReadmeFile root config fsY).readFile (root ++ ["README.md"]) = none ∨
      ∃ u, (updateReadmeFile root config fsY).readFile (root ++ ["README.md"])
          = some (.text u) ∧
        updateReadme u config.name config.description = u := by
  cases hy : fsY.readFile (root ++ ["README.md"]) with
  | none => exact Or.inl (updateReadmeFile_rd_none root config fsY hy)
  | some d =>
    right
    refine ⟨updateReadme (readAsText d) config.name config.description,
      updateReadmeFile_rd_some root config fsY d hy, ?_⟩
    exact updateReadme_of_tokenFree _ _ _ (hr d hy)

/-- C5 amended: token substitution is idempotent whenever the README
produced by the first application (under the faithful JavaScript
replacement semantics, dollar escapes included) is free of both
placeholder tokens — in particular whenever neither answer reintroduces a
token; the manifest part (`name`/`description` overwrite) is
unconditionally idempotent.  In general a second application can differ,
because an answer may reinsert a placeholder token that the second run
replaces — either verbatim (see the counterexample) or through the
dollar-ampersand escape. -/
theorem c5_amended_idempotent (root : Path) (config : Config)
    (fs fs1 : FS) (ev1 : List Event)
    (h1 : updateConfigFiles root config fs = .ok (fs1, ev1))
    (hr : ∀ d, fs.readFile (root ++ ["README.md"]) = some d →
      tokenFree (updateReadme (readAsText d) config.name config.description)) :
    ∃ fs2, updateConfigFiles root config fs1 = .ok (fs2, ev1) ∧
      ∀ p, fs2.readFile p = fs1.readFile p := by
  have hev := configFiles_ok_events root config fs fs1 ev1 h1
  subst hev
  unfold updateConfigFiles at h1
  cases hm : fs.readFile (root ++ ["package.json"]) with
  | some d =>
    cases d with
    | text s =>
      rw [hm] at h1
      simp at h1
    | jsonObj m =>
      rw [hm] at h1
      simp only [Except.ok.injEq, Prod.mk.injEq] at h1
      obtain ⟨hfs1, -⟩ := h1
      have hrdW : (fs.writeFile (root ++ ["package.json"])
          (.jsonObj (updatePackageJson m config.name config.description))).readFile
            (root ++ ["README.md"]) = fs.readFile (root ++ ["README.md"]) := by
        rw [FS.readFile_writeFile, if_neg (pjPath_ne_rdPath root)]
      have hpj1 : fs1.readFile (root ++ ["package.json"])
          = some (.jsonObj (updatePackageJson m config.name config.description)) := by
        rw [← hfs1,
          readFile_updateReadmeFile_other root config _ _ (pjPath_ne_rdPath root),
          FS.readFile_writeFile, if_pos rfl]
      have hstep : updateConfigFiles root config fs1
          = .ok (updateReadmeFile root config
              (fs1.writeFile (root ++ ["package.json"])
                (.jsonObj (updatePackageJson
                  (updatePackageJson m config.name config.description)
                  config.name config.description))),
            [Event.successMsg "Updated configuration files"]) := by
        unfold updateConfigFiles
        rw [hpj1]
      rw [updatePackageJson_idem] at hstep
      refine ⟨_, hstep, ?_⟩
      intro p
      rw [updateReadmeFile_congr_ptwise root config _ fs1
        (readFile_writeFile_self_eq fs1 _ _ hpj1) p]
      apply second_run_fixpoint
      rw [← hfs1]
      apply first_run_rd_property
      intro d0 hd0
      rw [hrdW] at hd0
      exact hr d0 hd0
  | none =>
    rw [hm] at h1
    simp only [Except.ok.injEq, Prod.mk.injEq] at h1
    obtain ⟨hfs1, -⟩ := h1
    have hpj1 : fs1.readFile (root ++ ["package.json"]) = none := by
      rw [← hfs1,
        readFile_updateReadmeFile_other root config _ _ (pjPath_ne_rdPath root)]
      exact hm
    have hstep : updateConfigFiles root config fs1
        = .ok (updateReadmeFile root config fs1,
          [Event.successMsg "Updated configuration files"]) := by
      unfold updateConfigFiles
      rw [hpj1]
    refine ⟨_, hstep, ?_⟩
    intro p
    apply second_run_fixpoint
    rw [← hfs1]
    exact first_run_rd_property root config fs hr

def c5wFs : FS :=
  ⟨[(["p", "README.md"],
      .text "Hello {{PROJECT_NAME}}: {{PROJECT_DESCRIPTION}}")], [["p"]]⟩

def c5wConfig : Config := ⟨"app", "nice", "custom", "supabase", false⟩

def c5wOnce : FS :=
  match updateConfigFiles ["p"] c5wConfig c5wFs with
  | .ok (f, _) => f
  | .error _ => c5wFs

theorem c5_witness :
    ∃ fs2, updateConfigFiles ["p"] c5wConfig c5wOnce
        = .ok (fs2, [Event.successMsg "Updated configuration files"]) ∧
      ∀ p, fs2.readFile p = c5wOnce.readFile p :=
  c5_amended_idempotent ["p"] c5wConfig c5wFs c5wOnce
    [Event.successMsg "Updated configuration files"]
    (by rfl)
    (by
      intro d h
      rw [(by decide : c5wFs.readFile (["p"] ++ ["README.md"])
        = some (.text "Hello {{PROJECT_NAME}}: {{PROJECT_DESCRIPTION}}"))] at h
      cases h
      decide)

/-- C6: For each numeric-choice prompt, an answer that does not parse to a
number or parses outside the prompt's valid 1-based range never raises an
error: the project-type prompt resolves to its default `custom`, the
database prompt to its default `supabase`, and the auth prompt to its
default `false` (skip). -/
theorem c6_invalid_choice_defaults (s : String) :
    ((∀ t : Int, parseIntJS (trimJS s) = some t → t < 1 ∨ 4 < t) →
      resolveProjectType s = "custom") ∧
    ((∀ t : Int, parseIntJS (trimJS s) = some t → t < 1 ∨ 3 < t) →
      resolveDatabase s = "supabase") ∧
    ((∀ t : Int, parseIntJS (trimJS s) = some t → t ≠ 1) →
      resolveAuth s = false) := by
  refine ⟨?_, ?_, ?_⟩
  · intro h
    unfold resolveProjectType
    cases hp : parseIntJS (trimJS s) with
    | none => rfl
    | some t =>
      show (if 1 ≤ t then (projectTypes[(t - 1).toNat]?).getD "custom"
        else "custom") = "custom"
      rcases h t hp with hlt | hgt
      · rw [if_neg (by omega)]
      · rw [if_pos (by omega)]
        have hlen : projectTypes.length = 4 := rfl
        rw [List.getElem?_eq_none (by rw [hlen]; omega)]
        rfl
  · intro h
    unfold resolveDatabase
    cases hp : parseIntJS (trimJS s) with
    | none => rfl
    | some t =>
      show (if 1 ≤ t then (databaseOptions[(t - 1).toNat]?).getD "supabase"
        else "supabase") = "supabase"
      rcases h t hp with hlt | hgt
      · rw [if_neg (by omega)]
      · rw [if_pos (by omega)]
        have hlen : databaseOptions.length = 3 := rfl
        rw [List.getElem?_eq_none (by rw [hlen]; omega)]
        rfl
  · intro h
    unfold resolveAuth
    cases hp : parseIntJS (trimJS s) with
    | none => rfl
    | some t =>
      have ht := h t hp
      simp only [decide_eq_false_iff_not]
      simp [ht]

theorem c6_witness :
    resolveProjectType "abc" = "custom" ∧ resolveDatabase "abc" = "supabase" ∧
      resolveAuth "abc" = false := by
  refine ⟨(c6_invalid_choice_defaults "abc").1 ?_,
    (c6_invalid_choice_defaults "abc").2.1 ?_,
    (c6_invalid_choice_defaults "abc").2.2 ?_⟩ <;>
  · intro t h
    rw [(by decide : parseIntJS (trimJS "abc") = none)] at h
    exact Option.noConfusion h

theorem countEvent_copyEvents_spawn (w : World) (c : String) (p : Path) :
    countEvent (Event.spawnCmd c p) (copyEvents w) = 0 := by
  unfold copyEvents
  cases templateEntries w <;> simp [countEvent]

theorem countEvent_install_npm_fail (npmOk : Bool) (p : Path) :
    countEvent (Event.spawnCmd "npm install" p)
      (installEvents false npmOk p) = 1 := by
  cases npmOk <;> simp [installEvents, countEvent]

theorem countEvent_git_spawn_npm (a b c : Bool) (p : Path) :
    countEvent (Event.spawnCmd "npm install" p) (gitEvents a b c p) = 0 := by
  cases a <;> cases b <;> cases c <;> simp [gitEvents, countEvent]

theorem git_init_mem (a b c : Bool) (p : Path) :
    Event.spawnCmd "git init" p ∈ gitEvents a b c p := by
  cases a <;> cases b <;> cases c <;> simp [gitEvents]

theorem pnpm_spawn_mem (x y : Bool) (p : Path) :
    Event.spawnCmd "pnpm install" p ∈ installEvents x y p := by
  cases x <;> cases y <;> simp [installEvents]

theorem npm_fail_warn_mem (p : Path) :
    Event.warn "Failed to install dependencies automatically"
      ∈ installEvents false false p := by
  simp [installEvents]

/-- C7: On a run that reaches the install step, if the primary
`pnpm install` fails then the fallback `npm install` is spawned exactly
once; the run still continues to the git-commit step (`git init` is
spawned) and the final success summary, and the exit code is 0; when the
fallback fails too, only the non-fatal warning is reported. -/
theorem c7_install_fallback (w : World)
    (h1 : projectNameOf w ≠ "")
    (h2 : w.fs.pathExists (projectPathOf w) = false)
    (r : FS × List Event)
    (h3 : configResult w = .ok r)
    (h4 : w.pnpmOk = false) :
    countEvent (Event.spawnCmd "npm install" (projectPathOf w))
        (createNewApp w).events = 1 ∧
    Event.spawnCmd "git init" (projectPathOf w) ∈ (createNewApp w).events ∧
    Event.summary (projectNameOf w) (projectPathOf w) ∈ (createNewApp w).events ∧
    (createNewApp w).exitCode = 0 ∧
    (w.npmOk = false →
      Event.warn "Failed to install dependencies automatically"
        ∈ (createNewApp w).events) := by
  have hmain : createNewApp w =
      { exitCode := 0
        fs := r.1
        events := promptEvents ++ [Event.successMsg "Created project directory"]
          ++ copyEvents w ++ r.2
          ++ installEvents w.pnpmOk w.npmOk (projectPathOf w)
          ++ gitEvents w.gitInitOk w.gitAddOk w.gitCommitOk (projectPathOf w)
          ++ [Event.summary (projectNameOf w) (projectPathOf w)]
        threw := false } := by
    unfold createNewApp
    rw [if_neg h1, if_neg (by rw [h2]; simp), h3]
  have hr2 : r.2 = [Event.successMsg "Updated configuration files"] := by
    cases r with
    | mk a b =>
      exact configFiles_ok_events (projectPathOf w) (configOf w) (copiedFS w)
        a b h3
  refine ⟨?_, ?_, ?_, by rw [hmain], ?_⟩
  · rw [hmain]
    simp only [countEvent_append, hr2, h4]
    rw [countEvent_install_npm_fail, countEvent_copyEvents_spawn,
      countEvent_git_spawn_npm]
    simp [promptEvents, countEvent]
  · rw [hmain]
    simp only [List.mem_append]
    exact Or.inl (Or.inr (git_init_mem _ _ _ _))
  · rw [hmain]
    simp only [List.mem_append]
    exact Or.inr (by simp)
  · intro h5
    rw [hmain, h4, h5]
    simp only [List.mem_append]
    exact Or.inl (Or.inl (Or.inr (npm_fail_warn_mem _)))

def c7World : World :=
  { answers := ⟨"app", "d", "4", "1", "1"⟩
    fs := ⟨[], []⟩
    templates := []
    cwd := ["home"]
    pnpmOk := false
    npmOk := false
    gitInitOk := true
    gitAddOk := true
    gitCommitOk := true }

theorem c7_witness :
    countEvent (Event.spawnCmd "npm install" (projectPathOf c7World))
        (createNewApp c7World).events = 1 ∧
    Event.spawnCmd "git init" (projectPathOf c7World)
      ∈ (createNewApp c7World).events ∧
    Event.summary (projectNameOf c7World) (projectPathOf c7World)
      ∈ (createNewApp c7World).events ∧
    (createNewApp c7World).exitCode = 0 ∧
    (c7World.npmOk = false →
      Event.warn "Failed to install dependencies automatically"
        ∈ (createNewApp c7World).events) :=
  c7_install_fallback c7World (by decide) (by decide)
    (c7World.fs.mkdir (projectPathOf c7World),
      [Event.successMsg "Updated configuration files"])
    (by rfl) (by decide)

/-- C8: If the template directory resolved from the chosen project type
does not exist on disk, the copy step is skipped with a non-fatal warning
and the run continues: dependencies install and git init are still
attempted, the success summary is printed, the exit code is 0, and the
project directory is created empty (no file is added anywhere). -/
theorem c8_missing_template_soft (w : World)
    (h1 : projectNameOf w ≠ "")
    (h2 : w.fs.pathExists (projectPathOf w) = false)
    (h3 : templateEntries w = none)
    (h4 : ∀ p d, (p, d) ∈ w.fs.files → ¬ projectPathOf w <+: p) :
    (createNewApp w).exitCode = 0 ∧
    Event.warn ("Template " ++ resolveProjectType w.answers.ptype
        ++ " not found, using basic template") ∈ (createNewApp w).events ∧
    Event.spawnCmd "pnpm install" (projectPathOf w) ∈ (createNewApp w).events ∧
    Event.spawnCmd "git init" (projectPathOf w) ∈ (createNewApp w).events ∧
    Event.summary (projectNameOf w) (projectPathOf w) ∈ (createNewApp w).events ∧
    (createNewApp w).fs.files = w.fs.files ∧
    projectPathOf w ∈ (createNewApp w).fs.dirs := by
  have hcopied : copiedFS w = w.fs.mkdir (projectPathOf w) := by
    unfold copiedFS
    rw [h3]
  have hpj : (copiedFS w).readFile (projectPathOf w ++ ["package.json"])
      = none := by
    rw [hcopied, FS.readFile_mkdir]
    cases hx : w.fs.readFile (projectPathOf w ++ ["package.json"]) with
    | none => rfl
    | some d =>
      exact (h4 _ _ (FS.readFile_mem w.fs _ d hx) (List.prefix_append _ _)).elim
  have hrd : (copiedFS w).readFile (projectPathOf w ++ ["README.md"])
      = none := by
    rw [hcopied, FS.readFile_mkdir]
    cases hx : w.fs.readFile (projectPathOf w ++ ["README.md"]) with
    | none => rfl
    | some d =>
      exact (h4 _ _ (FS.readFile_mem w.fs _ d hx) (List.prefix_append _ _)).elim
  have hconfig : configResult w
      = .ok (copiedFS w, [Event.successMsg "Updated configuration files"]) := by
    unfold configResult updateConfigFiles
    rw [hpj]
    unfold updateReadmeFile
    rw [hrd]
  have hcopyev : copyEvents w = [Event.warn ("Template "
      ++ resolveProjectType w.answers.ptype
      ++ " not found, using basic template")] := by
    unfold copyEvents
    rw [h3]
  have hmain : createNewApp w =
      { exitCode := 0
        fs := copiedFS w
        events := promptEvents ++ [Event.successMsg "Created project directory"]
          ++ copyEvents w ++ [Event.successMsg "Updated configuration files"]
          ++ installEvents w.pnpmOk w.npmOk (projectPathOf w)
          ++ gitEvents w.gitInitOk w.gitAddOk w.gitCommitOk (projectPathOf w)
          ++ [Event.summary (projectNameOf w) (projectPathOf w)]
        threw := false } := by
    unfold createNewApp
    rw [if_neg h1, if_neg (by rw [h2]; simp), hconfig]
  refine ⟨by rw [hmain], ?_, ?_, ?_, ?_, ?_, ?_⟩
  · rw [hmain, hcopyev]
    simp only [List.mem_append]
    exact Or.inl (Or.inl (Or.inl (Or.inl (Or.inr (by simp)))))
  · rw [hmain]
    simp only [List.mem_append]
    exact Or.inl (Or.inl (Or.inr (pnpm_spawn_mem _ _ _)))
  · rw [hmain]
    simp only [List.mem_append]
    exact Or.inl (Or.inr (git_init_mem _ _ _ _))
  · rw [hmain]
    simp only [List.mem_append]
    exact Or.inr (by simp)
  · rw [hmain, hcopied]
    rfl
  · rw [hmain, hcopied]
    exact List.mem_cons_self _ _

def c8World : World :=
  { answers := ⟨"app", "d", "1", "1", "1"⟩
    fs := ⟨[], []⟩
    templates := []
    cwd := ["home"]
    pnpmOk := true
    npmOk := true
    gitInitOk := true
    gitAddOk := true
    gitCommitOk := true }

theorem c8_witness :
    (createNewApp c8World).exitCode = 0 ∧
    Event.warn ("Template " ++ resolveProjectType c8World.answers.ptype
        ++ " not found, using basic template") ∈ (createNewApp c8World).events ∧
    Event.spawnCmd "pnpm install" (projectPathOf c8World)
      ∈ (createNewApp c8World).events ∧
    Event.spawnCmd "git init" (projectPathOf c8World)
      ∈ (createNewApp c8World).events ∧
    Event.summary (projectNameOf c8World) (projectPathOf c8World)
      ∈ (createNewApp c8World).events ∧
    (createNewApp c8World).fs.files = c8World.fs.files ∧
    projectPathOf c8World ∈ (createNewApp c8World).fs.dirs :=
  c8_missing_template_soft c8World (by decide) (by decide) (by rfl)
    (by intro p d h; simp [c8World] at h)

/-- C10: When the configuration-update step rewrites a present
`package.json`, every field other than `name` and `description` keeps the
value it had in the copied template manifest — the file is re-serialized as
structured data, so only its formatting may change, never another field's
value. -/
theorem c10_manifest_frame (root : Path) (config : Config) (fs fs' : FS)
    (ev : List Event) (m : List (String × JVal))
    (hm : fs.readFile (root ++ ["package.json"]) = some (.jsonObj m))
    (h : updateConfigFiles root config fs = .ok (fs', ev))
    (k : String) (hk1 : k ≠ "name") (hk2 : k ≠ "description") :
    ∃ m', fs'.readFile (root ++ ["package.json"]) = some (.jsonObj m') ∧
      lookupField m' k = lookupField m k := by
  unfold updateConfigFiles at h
  rw [hm] at h
  simp only [Except.ok.injEq, Prod.mk.injEq] at h
  obtain ⟨hfs', -⟩ := h
  refine ⟨updatePackageJson m config.name config.description, ?_, ?_⟩
  · rw [← hfs',
      readFile_updateReadmeFile_other root config _ _ (pjPath_ne_rdPath root),
      FS.readFile_writeFile, if_pos rfl]
  · unfold updatePackageJson
    rw [lookupField_setField_other _ _ _ _ hk2,
      lookupField_setField_other _ _ _ _ hk1]

def c10Once : FS :=
  match updateConfigFiles ["home", "app"] c4Config c4Fs with
  | .ok (f, _) => f
  | .error _ => c4Fs

theorem c10_witness :
    ∃ m', c10Once.readFile (["home", "app"] ++ ["package.json"])
        = some (.jsonObj m') ∧
      lookupField m' "version"
        = lookupField [("name", JVal.str "template"),
            ("version", JVal.other "1.0.0")] "version" :=
  c10_manifest_frame ["home", "app"] c4Config c4Fs c10Once
    [Event.successMsg "Updated configuration files"]
    [("name", .str "template"), ("version", .other "1.0.0")]
    (by decide) (by rfl) "version" (by decide) (by decide)

end C2C
